import Mathlib

/-!
Verification development for the retrieval-augmented recommendation
subsystem of the `ai-career-compass` backend.

The definitions below are a shallow embedding of the Python sources:
  * `src/backend/schemas.py`   (`RAGDocument`)
  * `src/backend/build_rag_db.py` (`load_and_validate_documents`, `main`)
  * `src/backend/rag_service.py`  (`RAGService._lazy_initialize`,
    `RAGService.query_and_assess_sources`)
  * `src/backend/main.py`      (`generate_advice_endpoint`, the roadmap
    enrichment fan-out/fan-in and merge loop)

Pure functions become Lean functions; the stateful service is embedded as
explicit state passing; fallible calls return `Except`.  Python floats that
only participate in order comparisons (embedding distances) are embedded
as rationals.
-/

/-- Embedding of the pydantic model `RAGDocument` from `schemas.py`:
`title`, `url`, `content` are required strings, `source_file` defaults to
"unknown". -/
structure RAGDocument where
  title : String
  url : String
  content : String
  source_file : String := "unknown"
  deriving Repr, DecidableEq

/-- A raw JSON record inside a source file, as seen by
`load_and_validate_documents`: either not a JSON object (skipped with a
warning), or an object whose three string fields may each be absent.
Fields that are present model string values; a record with all three
present validates as a `RAGDocument`. -/
inductive RawRecord where
  | notObject : RawRecord
  | obj (title url content : Option String) : RawRecord
  deriving Repr, DecidableEq

/-- A raw source file: a JSON decode error, a JSON value that is not a
list, or a list of records. -/
inductive RawFile where
  | decodeError : RawFile
  | notList : RawFile
  | records (rs : List RawRecord) : RawFile
  deriving Repr, DecidableEq

/-- Embedding of the per-file record loop of `load_and_validate_documents`
(`build_rag_db.py` lines 37-44 together with the surrounding `try`):
records that are not objects are skipped one by one; a record that is an
object is validated by `RAGDocument(**doc_dict)`, and a pydantic
`ValidationError` (some required field absent) escapes to the per-file
`except ValidationError` handler, which abandons the remainder of the
file while keeping the documents appended so far. -/
def processRecords (name : String) : List RawRecord → List RAGDocument
  | [] => []
  | .notObject :: rs => processRecords name rs
  | .obj t u c :: rs =>
    match t, u, c with
    | some t, some u, some c =>
      { title := t, url := u, content := c, source_file := name } :: processRecords name rs
    | _, _, _ => []

/-- The `glob("*.json")` filename filter: the file name ends in ".json"
(computed on the character list so that concrete instances reduce). -/
def isJsonName (name : String) : Bool :=
  ".json".data.isSuffixOf name.data

/-- Embedding of `load_and_validate_documents` (`build_rag_db.py` lines
19-53): glob all `*.json` files, skip files that fail to decode or whose
top level is not a list, and accumulate the validated records of each
remaining file. -/
def load_and_validate_documents (files : List (String × RawFile)) : List RAGDocument :=
  (files.filter (fun f => isJsonName f.1)).flatMap fun f =>
    match f.2 with
    | .decodeError => []
    | .notList => []
    | .records rs => processRecords f.1 rs

/-- Metadata persisted with an index entry.  The build path always
supplies all fields; the query path reads them back with `.get`
defaults, so the fields are optional here. -/
structure Meta where
  title : Option String
  url : Option String
  source : Option String
  deriving Repr, DecidableEq

/-- One persisted unit of the vector index: an id, the document text and
its metadata.  (The embedding vector itself never appears in the Python
sources; distances are produced by the index collaborator, embedded below
as an abstract distance function.) -/
structure IndexEntry where
  id : String
  document : String
  metadata : Meta
  deriving Repr, DecidableEq

/-- Base-10 digits, least significant first, by structural recursion on a
fuel bound so that concrete instances reduce; `digitsRev_eq_digits` below
identifies it with `Nat.digits 10`. -/
def digitsRev : Nat → Nat → List Nat
  | 0, _ => []
  | fuel + 1, n => if n = 0 then [] else n % 10 :: digitsRev fuel (n / 10)

/-- The character of one decimal digit. -/
def digitChar (d : Nat) : Char :=
  Char.ofNat (48 + d)

/-- Decimal rendering of a natural number, embedding Python's `str(i)`
inside the f-string id template. -/
def natStr (n : Nat) : String :=
  if n = 0 then "0" else ⟨(digitsRev n n).reverse.map digitChar⟩

/-- Embedding of `doc.title.replace(' ', '_').lower()[:50]` from
`build_rag_db.py` line 89. -/
def normTitle (t : String) : String :=
  ⟨((t.data.map fun c => if c = ' ' then '_' else c).map Char.toLower).take 50⟩

/-- The deterministic id template of `build_rag_db.py` line 89:
`f"doc_{i}_{title-fragment}"`. -/
def mkId (i : Nat) (title : String) : String :=
  "doc_" ++ natStr i ++ "_" ++ normTitle title

/-- `documents_to_add` (`build_rag_db.py` line 87). -/
def documents_to_add (docs : List RAGDocument) : List String :=
  docs.map (·.content)

/-- `metadatas_to_add` (`build_rag_db.py` line 88). -/
def metadatas_to_add (docs : List RAGDocument) : List Meta :=
  docs.map fun d => { title := some d.title, url := some d.url, source := some d.source_file }

/-- The enumerate-and-format loop behind `ids_to_add`
(`build_rag_db.py` line 89), rendered as a recursion carrying the
running index. -/
def idsFrom (n : Nat) : List RAGDocument → List String
  | [] => []
  | d :: ds => mkId n d.title :: idsFrom (n + 1) ds

/-- `ids_to_add` (`build_rag_db.py` line 89): one id per document,
indexed from 0. -/
def ids_to_add (docs : List RAGDocument) : List String :=
  idsFrom 0 docs

/-- The three parallel arrays handed to `collection.upsert`
(`build_rag_db.py` lines 99-103), zipped back into composite entries the
way the vector store consumes them in lockstep. -/
def buildEntries (docs : List RAGDocument) : List IndexEntry :=
  ((ids_to_add docs).zip ((documents_to_add docs).zip (metadatas_to_add docs))).map
    fun p => { id := p.1, document := p.2.1, metadata := p.2.2 }

/-- Insert-or-replace by id: the upsert contract of the vector store
(spec 4.4); replacing keeps the entry's position, inserting appends. -/
def upsertOne (c : List IndexEntry) (e : IndexEntry) : List IndexEntry :=
  if c.any fun x => x.id = e.id then
    c.map fun x => if x.id = e.id then e else x
  else
    c ++ [e]

/-- A batched upsert: the entries are applied in order. -/
def upsertAll (es : List IndexEntry) (c : List IndexEntry) : List IndexEntry :=
  es.foldl upsertOne c

/-- The fatal error classes of the `build_rag_db.py` `main` build:
missing/empty data directory (line 65), no valid documents (line 70),
empty processed batch (line 93). -/
inductive BuildError where
  | noData : BuildError
  | noValidDocs : BuildError
  | noDocsToAdd : BuildError
  deriving Repr, DecidableEq

/-- Embedding of `main` from `build_rag_db.py` (lines 56-109).  The
source directory is `none` when `os.path.exists` fails, otherwise the
directory listing; the persisted state is `none` while no collection
exists (`get_or_create_collection` materialises it).  Each fatal error
path returns the persisted state untouched. -/
def buildMain (dir : Option (List (String × RawFile))) (st : Option (List IndexEntry)) :
    Except BuildError Unit × Option (List IndexEntry) :=
  match dir with
  | none => (.error .noData, st)
  | some files =>
    if files.isEmpty then (.error .noData, st)
    else
      let docs := load_and_validate_documents files
      if docs.isEmpty then (.error .noValidDocs, st)
      else
        let c0 := st.getD []
        if (documents_to_add docs).isEmpty then (.error .noDocsToAdd, st)
        else (.ok (), some (upsertAll (buildEntries docs) c0))

/-- Stable insertion into a distance-sorted list (new element goes after
equal distances). -/
def insertByDist (x : ℚ × IndexEntry) : List (ℚ × IndexEntry) → List (ℚ × IndexEntry)
  | [] => [x]
  | y :: ys => if x.1 < y.1 then x :: y :: ys else y :: insertByDist x ys

/-- Ranking of a scored collection by ascending distance. -/
def sortByDist : List (ℚ × IndexEntry) → List (ℚ × IndexEntry)
  | [] => []
  | x :: xs => insertByDist x (sortByDist xs)

/-- The parallel result arrays of one `collection.query` call, i.e. the
inner lists `results["documents"][0]`, `results["metadatas"][0]`,
`results["distances"][0]`. -/
structure QueryResultsRaw where
  documents : List String
  metadatas : List Meta
  distances : List ℚ
  deriving Repr, DecidableEq

/-- The vector-index `query(embedding, k)` contract (spec 4.4): score
every stored entry with the abstract embedding-distance function `dist`
(query text × document text → distance), rank ascending, return the top
`k` as parallel arrays. -/
def chromaQuery (dist : String → String → ℚ) (c : List IndexEntry) (q : String) (k : Nat) :
    QueryResultsRaw :=
  let top := (sortByDist (c.map fun e => (dist q e.document, e))).take k
  { documents := top.map (·.2.document)
    metadatas := top.map (·.2.metadata)
    distances := top.map (·.1) }

/-- A query-time result handed back to the caller, as assembled in
`rag_service.py` lines 121-127. -/
structure RetrievedSource where
  title : String
  url : String
  content : String
  deriving Repr, DecidableEq

/-- The `{"relevant_sources": ..., "confidence": ...}` payload of
`query_and_assess_sources`. -/
structure RAGOutput where
  relevant_sources : List RetrievedSource
  confidence : String
  deriving Repr, DecidableEq

/-- One assembled source dict (`rag_service.py` lines 123-127): metadata
read back with `.get` defaults, content from the returned document. -/
def mkRetrieved (p : String × Meta) : RetrievedSource :=
  { title := p.2.title.getD "Unknown Source"
    url := p.2.url.getD "#"
    content := p.1 }

/-- The hard-coded `RELEVANCE_THRESHOLD = 1.0` of `rag_service.py`
line 114. -/
def RELEVANCE_THRESHOLD : ℚ := 1

/-- The relevance-gate-and-assemble phase of `query_and_assess_sources`
(`rag_service.py` lines 111-129): an empty distance array or a nearest
distance above the threshold yields the low-confidence sentinel,
otherwise every returned document is assembled into a source and the
confidence is high. -/
def assess_sources (res : QueryResultsRaw) : RAGOutput :=
  match res.distances with
  | [] => { relevant_sources := [], confidence := "low" }
  | d :: _ =>
    if RELEVANCE_THRESHOLD < d then { relevant_sources := [], confidence := "low" }
    else
      { relevant_sources := (res.documents.zip res.metadatas).map mkRetrieved
        confidence := "high" }

/-- The failure classes of the stateful service: `RAGServiceError` raised
by `_lazy_initialize`, and an uncaught per-query search failure escaping
`collection.query`. -/
inductive RAGFailure where
  | initError : RAGFailure
  | queryError : RAGFailure
  deriving Repr, DecidableEq

/-- The mutable fields of the `RAGService` singleton that the query path
inspects: whether `self.model` has been assigned, and `self.collection`
(`none` embeds Python `None`). -/
structure RAGState where
  modelLoaded : Bool
  collection : Option (List IndexEntry)
  deriving Repr, DecidableEq

/-- The environment one call runs against: whether loading the
sentence-transformer model succeeds, whether creating the client (and
loading the collection) succeeds, whether the per-query search call
succeeds, the collection contents `_load_or_create_db` would install, and
the abstract embedding-distance function. -/
structure RAGEnv where
  modelLoadOk : Bool
  clientOk : Bool
  queryOk : Bool
  storedCollection : List IndexEntry
  dist : String → String → ℚ

/-- Embedding of `RAGService._lazy_initialize` (`rag_service.py` lines
33-52): a no-op once `self.model` is set; otherwise the model is loaded
first (a failure there leaves the state untouched and raises
`RAGServiceError`), then the client is created and `_load_or_create_db`
installs the collection — a failure after the model assignment leaves the
model set but the collection unset, and raises `RAGServiceError`. -/
def lazy_initialize (env : RAGEnv) (s : RAGState) : Except RAGFailure Unit × RAGState :=
  if s.modelLoaded then (.ok (), s)
  else if !env.modelLoadOk then (.error .initError, s)
  else if !env.clientOk then (.error .initError, { s with modelLoaded := true })
  else (.ok (), { modelLoaded := true, collection := some env.storedCollection })

/-- Embedding of `RAGService.query_and_assess_sources` (`rag_service.py`
lines 93-129): lazy-initialize (propagating its error), return the
low-confidence sentinel when the collection is unavailable (lines
100-102), propagate a search failure, otherwise gate and assemble the
query results. -/
def query_and_assess_sources (env : RAGEnv) (s : RAGState) (q : String) (k : Nat) :
    Except RAGFailure RAGOutput × RAGState :=
  match lazy_initialize env s with
  | (.error e, s1) => (.error e, s1)
  | (.ok _, s1) =>
    match s1.collection with
    | none => (.ok { relevant_sources := [], confidence := "low" }, s1)
    | some c =>
      if !env.queryOk then (.error .queryError, s1)
      else (.ok (assess_sources (chromaQuery env.dist c q k)), s1)

/-- One step of the learning plan as the enrichment loop sees it
(`main.py` lines 113-132): a week number, the `learning_objectives` list
(`week.get(...)` defaults it to empty), and the `resources` key, which is
absent (`none`) until the merge loop assigns it. -/
structure LearningStep where
  week : Int
  learning_objectives : List String
  resources : Option (List RetrievedSource)
  deriving Repr, DecidableEq

/-- Modelled from the spec: `query_sources`, the per-objective retrieval
entry point named by `main.py` line 116, is absent from the source files
given (only `query_and_assess_sources` exists there); per spec 4.6 and 6
it performs one confidence-gated retrieval for the objective and, on
success, supplies that objective's sources as a list — the shape the
merge loop's `isinstance(result, list)` test accepts — while a failure
raises.  It is embedded as an abstract per-objective outcome:
`.ok sources` for a successful query, `.error` for a raised one. -/
def QuerySourcesFn : Type :=
  String → Except Unit (List RetrievedSource)

/-- The contribution one objective's gathered outcome makes to its
step's `resources` (`main.py` lines 128-131): a successful (list) result
is appended, an exception contributes nothing. -/
def objectiveSources (q : QuerySourcesFn) (o : String) : List RetrievedSource :=
  match q o with
  | .ok l => l
  | .error _ => []

/-- The inner merge loop of `main.py` lines 125-132 over one step's
objectives: consume one gathered result per objective, guarded by
`result_index < len(rag_results)` (on guard failure nothing is consumed
and the index stays), and concatenate the list-shaped results. -/
def consumeObjectives (results : List (Except Unit (List RetrievedSource))) :
    List String → Nat → List RetrievedSource × Nat
  | [], idx => ([], idx)
  | _ :: objs, idx =>
    if idx < results.length then
      let contrib := match results[idx]? with
        | some (.ok l) => l
        | _ => []
      let rest := consumeObjectives results objs (idx + 1)
      (contrib ++ rest.1, rest.2)
    else
      consumeObjectives results objs idx

/-- The outer merge loop of `main.py` lines 123-132: each step's
`resources` key is set (to the concatenation its objectives consumed) and
the running result index is threaded through the steps in order. -/
def mergeSteps (results : List (Except Unit (List RetrievedSource))) :
    List LearningStep → Nat → List LearningStep
  | [], _ => []
  | s :: ss, idx =>
    let p := consumeObjectives results s.learning_objectives idx
    { s with resources := some p.1 } :: mergeSteps results ss p.2

/-- Embedding of the enrichment fan-out/fan-in of
`generate_advice_endpoint` (`main.py` lines 111-133): one task per
objective in traversal order, `asyncio.gather(..., return_exceptions=True)`
collecting outcomes in the same order, and the merge loop — all of which
is skipped (`if tasks:`) when the roadmap has no objectives at all. -/
def enrich_roadmap (q : QuerySourcesFn) (plan : List LearningStep) : List LearningStep :=
  let results := ((plan.map (·.learning_objectives)).flatten).map q
  if results.isEmpty then plan
  else mergeSteps results plan 0

/-- Whitespace trimming as the spec's loader invariant ("content must be
non-empty after trimming") reads it — Python `str.strip()`: drop
whitespace from both ends. -/
def stripWhitespace (s : String) : String :=
  ⟨((s.data.dropWhile Char.isWhitespace).reverse.dropWhile Char.isWhitespace).reverse⟩

/-! ## Lemmas about the document loader -/

/-- A validation failure (some required field absent) abandons the
remainder of the file: the records before it contribute exactly what they
would contribute on their own. -/
theorem processRecords_append_invalid (name : String) (rs1 rs2 : List RawRecord)
    (t u c : Option String) (h : t = none ∨ u = none ∨ c = none) :
    processRecords name (rs1 ++ .obj t u c :: rs2) = processRecords name rs1 := by
  induction rs1 with
  | nil =>
    rcases t with _ | t <;> rcases u with _ | u <;> rcases c with _ | c <;>
      simp_all [processRecords]
  | cons r rs ih =>
    rcases r with _ | ⟨t1, u1, c1⟩
    · simpa [processRecords] using ih
    · rcases t1 with _ | t1 <;> rcases u1 with _ | u1 <;> rcases c1 with _ | c1 <;>
        simp [processRecords, ih]

/-- A record that is not a JSON object is skipped individually. -/
theorem processRecords_append_notObject (name : String) (rs1 rs2 : List RawRecord) :
    processRecords name (rs1 ++ .notObject :: rs2) = processRecords name (rs1 ++ rs2) := by
  induction rs1 with
  | nil => rfl
  | cons r rs ih =>
    rcases r with _ | ⟨t1, u1, c1⟩
    · simpa [processRecords] using ih
    · rcases t1 with _ | t1 <;> rcases u1 with _ | u1 <;> rcases c1 with _ | c1 <;>
        simp [processRecords, ih]

/-- Splitting the loader's output around one designated `.json` file. -/
theorem load_append_middle (pre post : List (String × RawFile)) (name : String)
    (rs : List RawRecord) :
    load_and_validate_documents (pre ++ (name, .records rs) :: post) =
      load_and_validate_documents pre ++
        (if isJsonName name then processRecords name rs else []) ++
        load_and_validate_documents post := by
  simp only [load_and_validate_documents, List.filter_append, List.flatMap_append,
    List.filter_cons]
  by_cases hj : isJsonName name <;> simp [hj]

/-- Claim C4 (amended): a record that is not an object is skipped
individually, but a record failing `RAGDocument` validation aborts the
remainder of its own file: records already validated in that file, and
all other files, are unaffected, while records after the invalid one are
lost. -/
theorem loader_invalid_record_truncates_file
    (pre post : List (String × RawFile)) (name : String) (rs1 rs2 : List RawRecord)
    (t u c : Option String) (h : t = none ∨ u = none ∨ c = none) :
    load_and_validate_documents (pre ++ (name, .records (rs1 ++ .obj t u c :: rs2)) :: post)
      = load_and_validate_documents (pre ++ (name, .records rs1) :: post)
    ∧ load_and_validate_documents (pre ++ (name, .records (rs1 ++ .notObject :: rs2)) :: post)
      = load_and_validate_documents (pre ++ (name, .records (rs1 ++ rs2)) :: post) := by
  constructor
  · rw [load_append_middle, load_append_middle,
      processRecords_append_invalid name rs1 rs2 t u c h]
  · rw [load_append_middle, load_append_middle, processRecords_append_notObject]

/-- Witness for C4 at a concrete file list. -/
theorem loader_invalid_record_truncates_file_witness :
    load_and_validate_documents [("f.json", .records [.obj (some "t") (some "u") none,
        .obj (some "t2") (some "u2") (some "c")])]
      = load_and_validate_documents [("f.json", .records [])]
    ∧ load_and_validate_documents [("f.json", .records [.notObject,
        .obj (some "t2") (some "u2") (some "c")])]
      = load_and_validate_documents [("f.json", .records [.obj (some "t2") (some "u2")
        (some "c")])] :=
  loader_invalid_record_truncates_file [] [] "f.json" []
    [.obj (some "t2") (some "u2") (some "c")] (some "t") (some "u") none
    (Or.inr (Or.inr rfl))

/-- Counterexample to C4 as stated: a file holding a record missing
`content` followed by a valid record yields zero loaded documents, while
the opposite order yields one — the surviving count is not
order-independent and the valid record after the invalid one is lost. -/
theorem loader_order_dependent_counterexample :
    load_and_validate_documents [("f.json", .records
        [.obj (some "t") (some "u") none, .obj (some "t2") (some "u2") (some "c")])] = []
    ∧ load_and_validate_documents [("f.json", .records
        [.obj (some "t2") (some "u2") (some "c"), .obj (some "t") (some "u") none])]
      = [{ title := "t2", url := "u2", content := "c", source_file := "f.json" }] :=
  ⟨rfl, rfl⟩

/-- Claim C5 (amended): validation only checks that `title`, `url` and
`content` are present: a record whose `content` is absent is rejected
(nothing of it, nor of the rest of its file, is loaded), while any
present `content` string — including the empty or a whitespace-only
one — is accepted verbatim. -/
theorem loader_checks_content_presence_only (name : String) (t u : Option String)
    (rs : List RawRecord) (t2 u2 c2 : String) :
    processRecords name (.obj t u none :: rs) = []
    ∧ processRecords name (.obj (some t2) (some u2) (some c2) :: rs)
      = { title := t2, url := u2, content := c2, source_file := name }
          :: processRecords name rs := by
  refine ⟨?_, rfl⟩
  rcases t with _ | t <;> rcases u with _ | u <;> rfl

/-- Counterexample to C5 as stated: a record whose content is the
whitespace-only string " " is loaded, and its content trims to the empty
string. -/
theorem loader_accepts_whitespace_content_counterexample :
    (load_and_validate_documents
        [("f.json", .records [.obj (some "t") (some "u") (some " ")])]).map
      (fun d => d.content) = [" "]
    ∧ stripWhitespace " " = "" :=
  ⟨rfl, rfl⟩

/-! ## The build entry point on the no-data path -/

/-- Claim C7 (confirmed): when the source directory is missing
(`os.path.exists` false) or its listing is empty, the build fails with
the no-data error before any client, collection or write is created, and
the persisted index state — including a not-yet-materialised
collection — is returned exactly as it was. -/
theorem build_no_data_leaves_state_unchanged
    (dir : Option (List (String × RawFile))) (st : Option (List IndexEntry))
    (h : dir = none ∨ dir = some []) :
    buildMain dir st = (.error .noData, st) := by
  rcases h with h | h <;> subst h <;> rfl

/-- Witness for C7: both the missing-directory and the empty-directory
shapes, at a concrete prior state. -/
theorem build_no_data_leaves_state_unchanged_witness :
    buildMain none (some [⟨"doc_0_x", "D", ⟨some "T", some "U", some "S"⟩⟩])
      = (.error .noData, some [⟨"doc_0_x", "D", ⟨some "T", some "U", some "S"⟩⟩])
    ∧ buildMain (some []) none = (.error .noData, none) :=
  ⟨build_no_data_leaves_state_unchanged none _ (Or.inl rfl),
   build_no_data_leaves_state_unchanged (some []) none (Or.inr rfl)⟩

/-! ## The decimal id template -/

theorem string_data_append (a b : String) : (a ++ b).data = a.data ++ b.data := rfl

theorem string_eq_of_data_eq {a b : String} (h : a.data = b.data) : a = b := by
  cases a; cases b; exact congrArg String.mk h

theorem digitsRev_eq_digits (fuel : Nat) :
    ∀ n, n ≤ fuel → digitsRev fuel n = Nat.digits 10 n := by
  induction fuel with
  | zero =>
    intro n hn
    interval_cases n
    simp [digitsRev]
  | succ f ih =>
    intro n hn
    by_cases h0 : n = 0
    · subst h0; simp [digitsRev]
    · have hdiv : n / 10 ≤ f := by
        have h1 : n / 10 < n := Nat.div_lt_self (Nat.pos_of_ne_zero h0) (by norm_num)
        omega
      rw [digitsRev, if_neg h0, ih (n / 10) hdiv,
        Nat.digits_def' (b := 10) (by norm_num) (Nat.pos_of_ne_zero h0)]

theorem natStr_data_of_ne_zero {n : Nat} (h : n ≠ 0) :
    (natStr n).data = (Nat.digits 10 n).reverse.map digitChar := by
  rw [natStr, if_neg h, digitsRev_eq_digits n n le_rfl]

theorem digitChar_inj_of_lt {a b : Nat} (ha : a < 10) (hb : b < 10)
    (h : digitChar a = digitChar b) : a = b := by
  interval_cases a <;> interval_cases b <;> first | rfl | exact absurd h (by decide)

theorem digitChar_ne_underscore {d : Nat} (hd : d < 10) : digitChar d ≠ '_' := by
  interval_cases d <;> decide

theorem map_digitChar_cancel :
    ∀ {l1 l2 : List Nat}, (∀ d ∈ l1, d < 10) → (∀ d ∈ l2, d < 10) →
      l1.map digitChar = l2.map digitChar → l1 = l2 := by
  intro l1
  induction l1 with
  | nil =>
    intro l2 _ _ h
    cases l2 with
    | nil => rfl
    | cons b bs => simp at h
  | cons a as ih =>
    intro l2 h1 h2 h
    cases l2 with
    | nil => simp at h
    | cons b bs =>
      simp only [List.map_cons, List.cons.injEq] at h
      have ha := h1 a (by simp)
      have hb := h2 b (by simp)
      have := digitChar_inj_of_lt ha hb h.1
      subst this
      rw [ih (fun d hd => h1 d (by simp [hd])) (fun d hd => h2 d (by simp [hd])) h.2]

theorem digits_lt_ten {m : Nat} : ∀ d ∈ Nat.digits 10 m, d < 10 :=
  fun _ hd => Nat.digits_lt_base (by norm_num) hd

theorem natStr_inj {m n : Nat} (h : natStr m = natStr n) : m = n := by
  have hd := congrArg String.data h
  by_cases hm : m = 0 <;> by_cases hn : n = 0
  · omega
  · exfalso
    rw [hm] at hd
    rw [natStr_data_of_ne_zero hn] at hd
    have h0 : ([0] : List Nat).map digitChar = (Nat.digits 10 n).reverse.map digitChar := hd
    have := map_digitChar_cancel (by simp) (fun d hd => digits_lt_ten d (List.mem_reverse.mp hd)) h0
    have hdig : Nat.digits 10 n = [0] := by
      have := congrArg List.reverse this
      simpa using this.symm
    have : n = 0 := by
      have := Nat.ofDigits_digits 10 n
      rw [hdig] at this
      simpa [Nat.ofDigits] using this.symm
    exact hn this
  · exfalso
    rw [hn] at hd
    rw [natStr_data_of_ne_zero hm] at hd
    have h0 : (Nat.digits 10 m).reverse.map digitChar = ([0] : List Nat).map digitChar := hd
    have := map_digitChar_cancel (fun d hd => digits_lt_ten d (List.mem_reverse.mp hd)) (by simp) h0
    have hdig : Nat.digits 10 m = [0] := by
      have := congrArg List.reverse this
      simpa using this
    have : m = 0 := by
      have := Nat.ofDigits_digits 10 m
      rw [hdig] at this
      simpa [Nat.ofDigits] using this.symm
    exact hm this
  · rw [natStr_data_of_ne_zero hm, natStr_data_of_ne_zero hn] at hd
    have := map_digitChar_cancel
      (fun d hdm => digits_lt_ten d (List.mem_reverse.mp hdm))
      (fun d hdn => digits_lt_ten d (List.mem_reverse.mp hdn)) hd
    have hdig : Nat.digits 10 m = Nat.digits 10 n := by
      have := congrArg List.reverse this
      simpa using this
    calc m = Nat.ofDigits 10 (Nat.digits 10 m) := (Nat.ofDigits_digits 10 m).symm
    _ = Nat.ofDigits 10 (Nat.digits 10 n) := by rw [hdig]
    _ = n := Nat.ofDigits_digits 10 n

theorem natStr_no_underscore (n : Nat) : ∀ c ∈ (natStr n).data, c ≠ '_' := by
  by_cases h : n = 0
  · subst h
    intro c hc
    simp [natStr] at hc
    subst hc
    decide
  · intro c hc
    rw [natStr_data_of_ne_zero h] at hc
    obtain ⟨d, hd, rfl⟩ := List.mem_map.mp hc
    exact digitChar_ne_underscore (digits_lt_ten d (List.mem_reverse.mp hd))

theorem sep_char_inj :
    ∀ (a b x y : List Char), (∀ c ∈ a, c ≠ '_') → (∀ c ∈ b, c ≠ '_') →
      a ++ '_' :: x = b ++ '_' :: y → a = b ∧ x = y := by
  intro a
  induction a with
  | nil =>
    intro b x y _ hb h
    cases b with
    | nil => simpa using h
    | cons c bs =>
      exfalso
      simp only [List.nil_append, List.cons_append, List.cons.injEq] at h
      exact hb c (by simp) h.1.symm
  | cons c as ih =>
    intro b x y ha hb h
    cases b with
    | nil =>
      exfalso
      simp only [List.nil_append, List.cons_append, List.cons.injEq] at h
      exact ha c (by simp) h.1
    | cons c2 bs =>
      simp only [List.cons_append, List.cons.injEq] at h
      obtain ⟨h1, h2⟩ := h
      subst h1
      obtain ⟨hab, hxy⟩ := ih bs x y (fun d hd => ha d (by simp [hd]))
        (fun d hd => hb d (by simp [hd])) h2
      exact ⟨by rw [hab], hxy⟩

theorem mkId_data (i : Nat) (t : String) :
    (mkId i t).data = 'd' :: 'o' :: 'c' :: '_' ::
      ((natStr i).data ++ '_' :: (normTitle t).data) := by
  show ("doc_" ++ natStr i ++ "_" ++ normTitle t).data = _
  simp only [string_data_append]
  simp [List.append_assoc]

/-- Two ids produced by the `f"doc_{i}_{title}"` template agree only if
their sequential indices agree: the decimal index contains no underscore,
so the first underscore after the "doc_" prefix delimits it. -/
theorem mkId_eq_imp_index_eq {i j : Nat} {t s : String} (h : mkId i t = mkId j s) :
    i = j := by
  have hd := congrArg String.data h
  rw [mkId_data, mkId_data] at hd
  simp only [List.cons.injEq, true_and] at hd
  obtain ⟨hn, -⟩ := sep_char_inj _ _ _ _ (natStr_no_underscore i) (natStr_no_underscore j) hd
  exact natStr_inj (string_eq_of_data_eq hn)

theorem idsFrom_length (n : Nat) (ds : List RAGDocument) :
    (idsFrom n ds).length = ds.length := by
  induction ds generalizing n with
  | nil => rfl
  | cons d ds ih => simp [idsFrom, ih]

theorem mem_idsFrom {x : String} :
    ∀ {n : Nat} {ds : List RAGDocument}, x ∈ idsFrom n ds →
      ∃ k t, n ≤ k ∧ x = mkId k t := by
  intro n ds
  induction ds generalizing n with
  | nil => intro h; simp [idsFrom] at h
  | cons d ds ih =>
    intro h
    rcases List.mem_cons.mp h with h | h
    · exact ⟨n, d.title, le_rfl, h⟩
    · obtain ⟨k, t, hk, ht⟩ := ih h
      exact ⟨k, t, by omega, ht⟩

theorem idsFrom_nodup (n : Nat) (ds : List RAGDocument) : (idsFrom n ds).Nodup := by
  induction ds generalizing n with
  | nil => simp [idsFrom]
  | cons d ds ih =>
    refine List.nodup_cons.mpr ⟨?_, ih (n + 1)⟩
    intro hmem
    obtain ⟨k, t, hk, ht⟩ := mem_idsFrom hmem
    have := mkId_eq_imp_index_eq ht
    omega

theorem idsFrom_getElem? (ds : List RAGDocument) :
    ∀ (n i : Nat), (idsFrom n ds)[i]? = ds[i]?.map fun d => mkId (n + i) d.title := by
  induction ds with
  | nil => intro n i; simp [idsFrom]
  | cons d ds ih =>
    intro n i
    cases i with
    | zero => simp [idsFrom]
    | succ i =>
      have hn : n + 1 + i = n + (i + 1) := by omega
      simp only [idsFrom, List.getElem?_cons_succ, ih (n + 1) i, hn]

/-! ## Upsert semantics -/

theorem upsertOne_map_id_of_present {c : List IndexEntry} {e : IndexEntry}
    (h : (c.any fun x => x.id = e.id) = true) :
    (upsertOne c e).map (·.id) = c.map (·.id) := by
  simp only [upsertOne, h, if_true, List.map_map]
  refine List.map_congr_left ?_
  intro x _
  by_cases hx : x.id = e.id <;> simp [Function.comp, hx]

theorem upsertOne_map_id_nodup {c : List IndexEntry} {e : IndexEntry}
    (h : (c.map (·.id)).Nodup) : ((upsertOne c e).map (·.id)).Nodup := by
  by_cases hp : (c.any fun x => x.id = e.id) = true
  · rw [upsertOne_map_id_of_present hp]; exact h
  · have : e.id ∉ c.map (·.id) := by
      intro hmem
      obtain ⟨x, hx, hid⟩ := List.mem_map.mp hmem
      exact hp (List.any_eq_true.mpr ⟨x, hx, by simp [hid]⟩)
    simp only [upsertOne, hp, if_false, List.map_append]
    simp [List.nodup_append, h, this]

theorem self_mem_upsertOne (c : List IndexEntry) (e : IndexEntry) : e ∈ upsertOne c e := by
  by_cases hp : (c.any fun x => x.id = e.id) = true
  · obtain ⟨x, hx, hid⟩ := List.any_eq_true.mp hp
    simp only [upsertOne, hp, if_true]
    exact List.mem_map.mpr ⟨x, hx, by simp_all⟩
  · simp [upsertOne, hp]

theorem mem_upsertOne_of_ne {a : IndexEntry} {c : List IndexEntry} {e : IndexEntry}
    (ha : a ∈ c) (hne : a.id ≠ e.id) : a ∈ upsertOne c e := by
  by_cases hp : (c.any fun x => x.id = e.id) = true
  · simp only [upsertOne, hp, if_true]
    exact List.mem_map.mpr ⟨a, ha, by simp [hne]⟩
  · simp [upsertOne, hp, ha]

theorem upsertOne_eq_self {c : List IndexEntry} {e : IndexEntry}
    (hnd : (c.map (·.id)).Nodup) (he : e ∈ c) : upsertOne c e = c := by
  have hp : (c.any fun x => x.id = e.id) = true :=
    List.any_eq_true.mpr ⟨e, he, by simp⟩
  simp only [upsertOne, hp, if_true]
  have : ∀ x ∈ c, (if x.id = e.id then e else x) = x := by
    intro x hx
    by_cases hid : x.id = e.id
    · have : x = e := List.inj_on_of_nodup_map hnd hx he hid
      simp [this]
    · simp [hid]
  calc c.map (fun x => if x.id = e.id then e else x) = c.map id :=
        List.map_congr_left fun a ha => by simpa using this a ha
  _ = c := List.map_id c

theorem upsertAll_eq_self {es c : List IndexEntry}
    (hnd : (c.map (·.id)).Nodup) (hall : ∀ e ∈ es, e ∈ c) : upsertAll es c = c := by
  induction es with
  | nil => rfl
  | cons e es ih =>
    show upsertAll es (upsertOne c e) = c
    rw [upsertOne_eq_self hnd (hall e (by simp))]
    exact ih fun x hx => hall x (by simp [hx])

theorem mem_upsertAll_of_fresh {a : IndexEntry} :
    ∀ {es c : List IndexEntry}, a ∈ c → (∀ e ∈ es, e.id ≠ a.id) → a ∈ upsertAll es c := by
  intro es
  induction es with
  | nil => intro c ha _; exact ha
  | cons e es ih =>
    intro c ha hne
    exact ih (mem_upsertOne_of_ne ha fun h => hne e (by simp) h.symm)
      fun x hx => hne x (by simp [hx])

theorem mem_upsertAll_self :
    ∀ {es : List IndexEntry}, (es.map (·.id)).Nodup →
      ∀ {c : List IndexEntry}, ∀ e ∈ es, e ∈ upsertAll es c := by
  intro es
  induction es with
  | nil => intro _ c e he; simp at he
  | cons e0 es ih =>
    intro hnd c e he
    rcases List.mem_cons.mp he with rfl | he
    · show e ∈ upsertAll es (upsertOne c e)
      refine mem_upsertAll_of_fresh (self_mem_upsertOne c e) ?_
      intro x hx hid
      have : e.id ∈ es.map (·.id) := List.mem_map.mpr ⟨x, hx, hid⟩
      exact (List.nodup_cons.mp hnd).1 this
    · exact ih (List.nodup_cons.mp hnd).2 e he

theorem upsertAll_map_id_nodup :
    ∀ {es c : List IndexEntry}, (c.map (·.id)).Nodup →
      ((upsertAll es c).map (·.id)).Nodup := by
  intro es
  induction es with
  | nil => intro c h; exact h
  | cons e es ih => intro c h; exact ih (upsertOne_map_id_nodup h)

theorem upsertAll_length_of_fresh :
    ∀ {es c : List IndexEntry}, (es.map (·.id)).Nodup →
      (∀ e ∈ es, e.id ∉ c.map (·.id)) →
      (upsertAll es c).length = c.length + es.length := by
  intro es
  induction es with
  | nil => intro c _ _; simp [upsertAll]
  | cons e0 es ih =>
    intro c hnd hfresh
    have hp : ¬(c.any fun x => x.id = e0.id) = true := by
      intro hp
      obtain ⟨x, hx, hid⟩ := List.any_eq_true.mp hp
      exact hfresh e0 (by simp) (List.mem_map.mpr ⟨x, hx, by simpa using hid⟩)
    show (upsertAll es (upsertOne c e0)).length = c.length + (e0 :: es).length
    have hstep : upsertOne c e0 = c ++ [e0] := by simp [upsertOne, hp]
    have hfresh2 : ∀ e ∈ es, e.id ∉ (c ++ [e0]).map (·.id) := by
      intro e he hmem
      rw [List.map_append] at hmem
      rcases List.mem_append.mp hmem with hmem | hmem
      · exact hfresh e (by simp [he]) hmem
      · have h0 : e.id = e0.id := by simpa using hmem
        have : e0.id ∈ es.map (·.id) := List.mem_map.mpr ⟨e, he, h0⟩
        exact (List.nodup_cons.mp hnd).1 this
    rw [hstep, ih (List.nodup_cons.mp hnd).2 hfresh2]
    simp
    omega

/-! ## The parallel arrays of the batched upsert -/

/-- Claim C9 (confirmed): the `documents`, `metadatas` and `ids` arrays
passed to the batched upsert are computed in lockstep: all three have the
length of the loaded document list, and at every position `i` all three
are derived from the same loaded document `docs[i]`. -/
theorem build_parallel_arrays_lockstep (docs : List RAGDocument) :
    (documents_to_add docs).length = docs.length
    ∧ (metadatas_to_add docs).length = docs.length
    ∧ (ids_to_add docs).length = docs.length
    ∧ ∀ (i : Nat) (hi : i < docs.length),
        (documents_to_add docs)[i]? = some docs[i].content
        ∧ (metadatas_to_add docs)[i]? =
            some ⟨some docs[i].title, some docs[i].url, some docs[i].source_file⟩
        ∧ (ids_to_add docs)[i]? = some (mkId i docs[i].title) := by
  refine ⟨by simp [documents_to_add], by simp [metadatas_to_add],
    idsFrom_length 0 docs, ?_⟩
  intro i hi
  have hget : docs[i]? = some docs[i] := List.getElem?_eq_getElem hi
  refine ⟨?_, ?_, ?_⟩
  · simp [documents_to_add, hget]
  · simp [metadatas_to_add, hget]
  · rw [ids_to_add, idsFrom_getElem? docs 0 i, hget]
    simp

/-- Witness for C9 at a concrete document list and position. -/
theorem build_parallel_arrays_lockstep_witness :
    (ids_to_add [⟨"A B", "u", "c", "f.json"⟩])[0]? = some "doc_0_a_b"
    ∧ (documents_to_add [⟨"A B", "u", "c", "f.json"⟩])[0]? = some "c"
    ∧ (metadatas_to_add [⟨"A B", "u", "c", "f.json"⟩])[0]? =
        some ⟨some "A B", some "u", some "f.json"⟩ := by
  have h := (build_parallel_arrays_lockstep [⟨"A B", "u", "c", "f.json"⟩]).2.2.2 0
    (by decide)
  exact ⟨h.2.2.trans (by decide), h.1, h.2.1⟩

theorem buildEntries_map_id (docs : List RAGDocument) :
    (buildEntries docs).map (·.id) = ids_to_add docs := by
  rw [buildEntries, List.map_map]
  have hc : ((fun e : IndexEntry => e.id) ∘ fun p : String × String × Meta =>
      ({ id := p.1, document := p.2.1, metadata := p.2.2 } : IndexEntry)) = Prod.fst := rfl
  rw [hc, List.map_fst_zip]
  show (idsFrom 0 docs).length ≤ _
  rw [idsFrom_length 0 docs, List.length_zip]
  simp [documents_to_add, metadatas_to_add]

theorem buildEntries_length (docs : List RAGDocument) :
    (buildEntries docs).length = docs.length := by
  rw [buildEntries, List.length_map, List.length_zip, List.length_zip]
  have h0 : (ids_to_add docs).length = docs.length := idsFrom_length 0 docs
  rw [h0]
  simp [documents_to_add, metadatas_to_add]

/-- Claim C10 (confirmed): the build-time ids are pairwise distinct even
for identical titles (the decimal index delimited by underscores differs),
so the batched upsert of a build into a fresh collection yields one index
entry per loaded document — no two documents collapse into one entry. -/
theorem build_ids_pairwise_distinct (docs : List RAGDocument) :
    (ids_to_add docs).Nodup
    ∧ (upsertAll (buildEntries docs) []).length = docs.length := by
  refine ⟨idsFrom_nodup 0 docs, ?_⟩
  have hnd : ((buildEntries docs).map (·.id)).Nodup := by
    rw [buildEntries_map_id]; exact idsFrom_nodup 0 docs
  have hlen := upsertAll_length_of_fresh (c := []) hnd
    (by intro e he hmem; simp at hmem)
  rw [hlen]
  simpa using buildEntries_length docs

/-! ## Idempotence of the build -/

/-- Claim C6 (confirmed): under the vector store's invariant that ids in
a collection are unique, re-running the build on an unchanged source
directory leaves the persisted state exactly as one run left it — the
second run overwrites the same ids with the same entries and accumulates
nothing — so any fixed query returns identical results after one run and
after two. -/
theorem build_index_idempotent (files : List (String × RawFile))
    (st : Option (List IndexEntry))
    (h : ((st.getD []).map (·.id)).Nodup) :
    (buildMain (some files) (buildMain (some files) st).2).2 = (buildMain (some files) st).2
    ∧ ∀ (dist : String → String → ℚ) (q : String) (k : Nat),
        chromaQuery dist ((buildMain (some files) (buildMain (some files) st).2).2.getD []) q k
          = chromaQuery dist ((buildMain (some files) st).2.getD []) q k := by
  by_cases h1 : files.isEmpty
  · refine ⟨?_, fun dist q k => ?_⟩ <;> simp [buildMain, h1]
  · by_cases h2 : (load_and_validate_documents files).isEmpty
    · refine ⟨?_, fun dist q k => ?_⟩ <;> simp [buildMain, h1, h2]
    · have h3 : (documents_to_add (load_and_validate_documents files)).isEmpty = false := by
        rw [documents_to_add]
        cases hd : load_and_validate_documents files with
        | nil => rw [hd] at h2; simp at h2
        | cons a l => simp
      have hrun : buildMain (some files) st = (.ok (), some (upsertAll
          (buildEntries (load_and_validate_documents files)) (st.getD []))) := by
        simp [buildMain, h1, h2, h3]
      have hkey : ((buildEntries (load_and_validate_documents files)).map (·.id)).Nodup := by
        rw [buildEntries_map_id]
        exact idsFrom_nodup 0 _
      have hnd1 : ((upsertAll (buildEntries (load_and_validate_documents files))
          (st.getD [])).map (·.id)).Nodup := upsertAll_map_id_nodup h
      have hfix : upsertAll (buildEntries (load_and_validate_documents files))
          (upsertAll (buildEntries (load_and_validate_documents files)) (st.getD []))
            = upsertAll (buildEntries (load_and_validate_documents files)) (st.getD []) :=
        upsertAll_eq_self hnd1 fun e he => mem_upsertAll_self hkey e he
      have hsecond : buildMain (some files) (some (upsertAll
          (buildEntries (load_and_validate_documents files)) (st.getD []))) =
          (.ok (), some (upsertAll (buildEntries (load_and_validate_documents files))
            (upsertAll (buildEntries (load_and_validate_documents files)) (st.getD [])))) := by
        simp [buildMain, h1, h2, h3]
      refine ⟨?_, fun dist q k => ?_⟩ <;> rw [hrun] <;> simp [hsecond, hfix]

/-- Witness for C6: a one-document build applied on a fresh state is a
fixed point of a second build. -/
theorem build_index_idempotent_witness :
    (buildMain (some [("a.json", .records [.obj (some "t") (some "u") (some "c")])])
        (buildMain (some [("a.json", .records [.obj (some "t") (some "u") (some "c")])])
          none).2).2
      = (buildMain (some [("a.json", .records [.obj (some "t") (some "u") (some "c")])])
          none).2 :=
  (build_index_idempotent [("a.json", .records [.obj (some "t") (some "u") (some "c")])]
    none (by simp)).1

/-! ## The retrieval query path -/

theorem insertByDist_length (x : ℚ × IndexEntry) :
    ∀ l : List (ℚ × IndexEntry), (insertByDist x l).length = l.length + 1 := by
  intro l
  induction l with
  | nil => rfl
  | cons y ys ih =>
    rw [insertByDist]
    by_cases h : x.1 < y.1 <;> simp [h, ih]

theorem sortByDist_length : ∀ l : List (ℚ × IndexEntry), (sortByDist l).length = l.length := by
  intro l
  induction l with
  | nil => rfl
  | cons x xs ih => rw [sortByDist, insertByDist_length, ih, List.length_cons]

theorem chromaQuery_lengths (dist : String → String → ℚ) (c : List IndexEntry)
    (q : String) (k : Nat) :
    (chromaQuery dist c q k).documents.length = min k c.length
    ∧ (chromaQuery dist c q k).metadatas.length = min k c.length
    ∧ (chromaQuery dist c q k).distances.length = min k c.length := by
  refine ⟨?_, ?_, ?_⟩ <;>
    simp [chromaQuery, List.length_take, sortByDist_length]

/-- Case analysis of the relevance gate of `query_and_assess_sources`. -/
theorem assess_sources_spec (res : QueryResultsRaw) :
    (res.distances = [] → assess_sources res = ⟨[], "low"⟩)
    ∧ (∀ d l, res.distances = d :: l → RELEVANCE_THRESHOLD < d →
        assess_sources res = ⟨[], "low"⟩)
    ∧ (∀ d l, res.distances = d :: l → d ≤ RELEVANCE_THRESHOLD →
        assess_sources res = ⟨(res.documents.zip res.metadatas).map mkRetrieved, "high"⟩) := by
  refine ⟨?_, ?_, ?_⟩
  · intro h
    rw [assess_sources, h]
  · intro d l h hd
    rw [assess_sources, h]
    simp [hd]
  · intro d l h hd
    rw [assess_sources, h]
    simp [not_lt.mpr hd]

/-- Claim C2 (confirmed): the query result arrays have length
`min k (size of the index)`; when the index query returns no results, or
the nearest (first) distance strictly exceeds the threshold, the outcome
is the empty low-confidence sentinel; otherwise every returned result is
assembled into a RetrievedSource and the confidence is high — so the high
outcome carries all `min k size` results the index returned. -/
theorem query_relevance_gate (dist : String → String → ℚ) (c : List IndexEntry)
    (q : String) (k : Nat) :
    (chromaQuery dist c q k).distances.length = min k c.length
    ∧ ((chromaQuery dist c q k).distances = [] →
        assess_sources (chromaQuery dist c q k) = ⟨[], "low"⟩)
    ∧ (∀ d l, (chromaQuery dist c q k).distances = d :: l → RELEVANCE_THRESHOLD < d →
        assess_sources (chromaQuery dist c q k) = ⟨[], "low"⟩)
    ∧ (∀ d l, (chromaQuery dist c q k).distances = d :: l → d ≤ RELEVANCE_THRESHOLD →
        (assess_sources (chromaQuery dist c q k)).confidence = "high"
        ∧ (assess_sources (chromaQuery dist c q k)).relevant_sources
            = ((chromaQuery dist c q k).documents.zip
                (chromaQuery dist c q k).metadatas).map mkRetrieved
        ∧ (assess_sources (chromaQuery dist c q k)).relevant_sources.length
            = min k c.length) := by
  obtain ⟨hdoc, hmeta, hdist⟩ := chromaQuery_lengths dist c q k
  obtain ⟨hnil, hlow, hhigh⟩ := assess_sources_spec (chromaQuery dist c q k)
  refine ⟨hdist, hnil, hlow, ?_⟩
  intro d l h hd
  rw [hhigh d l h hd]
  refine ⟨rfl, rfl, ?_⟩
  simp [List.length_zip, hdoc, hmeta]

/-- Witness for C2: the empty-result, above-threshold and below-threshold
cases at a one-entry index. -/
theorem query_relevance_gate_witness :
    assess_sources (chromaQuery (fun _ _ => 0) [] "q" 2) = ⟨[], "low"⟩
    ∧ assess_sources (chromaQuery (fun _ _ => 2)
        [⟨"doc_0_x", "D", ⟨some "T", some "U", some "S"⟩⟩] "q" 2) = ⟨[], "low"⟩
    ∧ (assess_sources (chromaQuery (fun _ _ => 0)
        [⟨"doc_0_x", "D", ⟨some "T", some "U", some "S"⟩⟩] "q" 2)).confidence = "high"
    ∧ (assess_sources (chromaQuery (fun _ _ => 0)
        [⟨"doc_0_x", "D", ⟨some "T", some "U", some "S"⟩⟩] "q" 2)).relevant_sources.length
        = min 2 1 :=
  ⟨(query_relevance_gate (fun _ _ => 0) [] "q" 2).2.1 rfl,
   (query_relevance_gate (fun _ _ => 2)
      [⟨"doc_0_x", "D", ⟨some "T", some "U", some "S"⟩⟩] "q" 2).2.2.1 2 [] rfl (by decide),
   ((query_relevance_gate (fun _ _ => 0)
      [⟨"doc_0_x", "D", ⟨some "T", some "U", some "S"⟩⟩] "q" 2).2.2.2 0 [] rfl
        (by decide)).1,
   ((query_relevance_gate (fun _ _ => 0)
      [⟨"doc_0_x", "D", ⟨some "T", some "U", some "S"⟩⟩] "q" 2).2.2.2 0 [] rfl
        (by decide)).2.2⟩

/-- Claim C8 (amended): the relevant-sources list never exceeds `k`
entries nor the index size; on the high-confidence path its length is
exactly `min k (index size)`, so there it is shorter than `k` only when
the index holds fewer than `k` entries.  (The low-confidence gate instead
returns zero sources regardless of how many entries the index holds.) -/
theorem query_sources_length_bounds (dist : String → String → ℚ) (c : List IndexEntry)
    (q : String) (k : Nat) :
    (assess_sources (chromaQuery dist c q k)).relevant_sources.length ≤ k
    ∧ (assess_sources (chromaQuery dist c q k)).relevant_sources.length ≤ c.length
    ∧ ((assess_sources (chromaQuery dist c q k)).confidence = "high" →
        (assess_sources (chromaQuery dist c q k)).relevant_sources.length
          = min k c.length) := by
  obtain ⟨hdoc, hmeta, _⟩ := chromaQuery_lengths dist c q k
  obtain ⟨hnil, hlow, hhigh⟩ := assess_sources_spec (chromaQuery dist c q k)
  cases hd : (chromaQuery dist c q k).distances with
  | nil =>
    rw [hnil hd]
    refine ⟨by simp, by simp, ?_⟩
    intro hconf
    exact absurd hconf (by decide)
  | cons d l =>
    by_cases hthr : RELEVANCE_THRESHOLD < d
    · rw [hlow d l hd hthr]
      refine ⟨by simp, by simp, ?_⟩
      intro hconf
      exact absurd hconf (by decide)
    · rw [hhigh d l hd (not_lt.mp hthr)]
      have hz : (((chromaQuery dist c q k).documents.zip
          (chromaQuery dist c q k).metadatas).map mkRetrieved).length = min k c.length := by
        simp [List.length_zip, hdoc, hmeta]
      exact ⟨by simp [hz], by simp [hz], fun _ => by simp [hz]⟩

/-- Witness for C8's high-confidence clause at a concrete one-entry
index with `k = 5`. -/
theorem query_sources_length_bounds_witness :
    (assess_sources (chromaQuery (fun _ _ => 0)
        [⟨"doc_0_x", "D", ⟨some "T", some "U", some "S"⟩⟩] "anything" 5)).relevant_sources.length
      = min 5 1 :=
  (query_sources_length_bounds (fun _ _ => 0)
      [⟨"doc_0_x", "D", ⟨some "T", some "U", some "S"⟩⟩] "anything" 5).2.2 (by decide)

/-- Counterexample to C8 as stated: with a one-entry index whose only
distance is 2 (above the threshold) and `k = 1`, the gate returns zero
sources — strictly fewer than `k` — although the index does not hold
fewer than `k` entries. -/
theorem query_sources_gate_shortfall_counterexample :
    (assess_sources (chromaQuery (fun _ _ => 2)
        [⟨"doc_0_x", "D", ⟨some "T", some "U", some "S"⟩⟩] "anything" 1)).relevant_sources.length
      = 0
    ∧ (0 : Nat) < 1
    ∧ ¬([⟨"doc_0_x", "D", ⟨some "T", some "U", some "S"⟩⟩] : List IndexEntry).length < 1 := by
  refine ⟨by decide, by decide, by decide⟩

/-! ## The roadmap enrichment merge loop -/

theorem consumeObjectives_spec (results : List (Except Unit (List RetrievedSource)))
    (q : QuerySourcesFn) :
    ∀ (objs rest : List String) (idx : Nat),
      results.drop idx = (objs ++ rest).map q →
      consumeObjectives results objs idx
        = ((objs.map (objectiveSources q)).flatten, idx + objs.length)
      ∧ results.drop (idx + objs.length) = rest.map q := by
  intro objs
  induction objs with
  | nil =>
    intro rest idx h
    exact ⟨by simp [consumeObjectives], by simpa using h⟩
  | cons o objs ih =>
    intro rest idx h
    have hcons : results.drop idx = q o :: (objs ++ rest).map q := by simpa using h
    have hlt : idx < results.length := by
      by_contra hge
      rw [List.drop_eq_nil_of_le (by omega)] at hcons
      simp at hcons
    have hget : results[idx]? = some (q o) := by
      have h0 : (results.drop idx).head? = some (q o) := by rw [hcons]; rfl
      rw [List.head?_drop] at h0
      exact h0
    have hdrop1 : results.drop (idx + 1) = (objs ++ rest).map q := by
      have h1 : (results.drop idx).tail = (objs ++ rest).map q := by rw [hcons]; rfl
      rw [List.tail_drop] at h1
      exact h1
    obtain ⟨hrec, hdroprec⟩ := ih rest (idx + 1) hdrop1
    have hqlen : idx + 1 + objs.length = idx + (o :: objs).length := by
      simp
      omega
    refine ⟨?_, by rw [← hqlen]; exact hdroprec⟩
    rw [consumeObjectives, if_pos hlt, hget, hrec]
    rcases hqo : q o with e | l <;>
      simp [objectiveSources, hqo, hqlen]

theorem mergeSteps_spec (results : List (Except Unit (List RetrievedSource)))
    (q : QuerySourcesFn) :
    ∀ (ss : List LearningStep) (rest : List String) (idx : Nat),
      results.drop idx = ((ss.map (·.learning_objectives)).flatten ++ rest).map q →
      mergeSteps results ss idx
        = ss.map fun s =>
            { s with
              resources := some ((s.learning_objectives.map (objectiveSources q)).flatten) } := by
  intro ss
  induction ss with
  | nil => intro rest idx _; rfl
  | cons s ss ih =>
    intro rest idx h
    have hsplit : results.drop idx
        = (s.learning_objectives
            ++ ((ss.map (·.learning_objectives)).flatten ++ rest)).map q := by
      simpa [List.append_assoc] using h
    obtain ⟨hcons, hdrop⟩ := consumeObjectives_spec results q s.learning_objectives
      ((ss.map (·.learning_objectives)).flatten ++ rest) idx hsplit
    have h1 : (consumeObjectives results s.learning_objectives idx).1
        = (s.learning_objectives.map (objectiveSources q)).flatten := by rw [hcons]
    have h2 : (consumeObjectives results s.learning_objectives idx).2
        = idx + s.learning_objectives.length := by rw [hcons]
    show ({ s with resources := some (consumeObjectives results s.learning_objectives idx).1 }
        :: mergeSteps results ss (consumeObjectives results s.learning_objectives idx).2) = _
    rw [h1, h2, ih rest (idx + s.learning_objectives.length) hdrop, List.map_cons]

/-- Claim C1 (amended): when the roadmap holds at least one objective,
enrichment returns the same steps in the same order, with each step's
`resources` set to the concatenation, in objective order, of its
objectives' retrieved source lists — a failing objective contributes
nothing while every other objective's sources stay attached to its own
step.  When the roadmap holds no objectives at all, the `if tasks:` guard
skips the merge, so the steps come back unchanged and `resources` is
never initialised. -/
theorem enrich_roadmap_attaches_sources (q : QuerySourcesFn) (plan : List LearningStep) :
    ((plan.map (·.learning_objectives)).flatten ≠ [] →
      enrich_roadmap q plan
        = plan.map fun s =>
            { s with
              resources := some ((s.learning_objectives.map (objectiveSources q)).flatten) })
    ∧ ((plan.map (·.learning_objectives)).flatten = [] → enrich_roadmap q plan = plan) := by
  constructor
  · intro hne
    have hspec := mergeSteps_spec ((plan.map (·.learning_objectives)).flatten.map q) q
      plan [] 0 (by simp)
    have hempty : ((plan.map (·.learning_objectives)).flatten.map q).isEmpty = false := by
      cases hflat : (plan.map (·.learning_objectives)).flatten with
      | nil => exact absurd hflat hne
      | cons a l => rfl
    show (if ((plan.map (·.learning_objectives)).flatten.map q).isEmpty then plan
        else mergeSteps ((plan.map (·.learning_objectives)).flatten.map q) plan 0) = _
    rw [hempty]
    simpa using hspec
  · intro hz
    show (if ((plan.map (·.learning_objectives)).flatten.map q).isEmpty then plan
        else mergeSteps ((plan.map (·.learning_objectives)).flatten.map q) plan 0) = plan
    rw [hz]
    rfl

/-- Witness for C1: the spec's W=2 steps x 2 objectives scenario with one
failing objective (three contributions populated, the failing step keeps
its sibling's sources, ordering unchanged), plus the no-objectives
branch. -/
theorem enrich_roadmap_attaches_sources_witness :
    enrich_roadmap
        (fun o => if o = "bad" then .error () else .ok [⟨o, "u", "c"⟩])
        [⟨1, ["a", "bad"], none⟩, ⟨2, ["b", "d"], none⟩]
      = [⟨1, ["a", "bad"], some [⟨"a", "u", "c"⟩]⟩,
         ⟨2, ["b", "d"], some [⟨"b", "u", "c"⟩, ⟨"d", "u", "c"⟩]⟩]
    ∧ enrich_roadmap (fun o => if o = "bad" then .error () else .ok [⟨o, "u", "c"⟩])
        [⟨3, [], some []⟩] = [⟨3, [], some []⟩] := by
  constructor
  · exact ((enrich_roadmap_attaches_sources
      (fun o => if o = "bad" then .error () else .ok [⟨o, "u", "c"⟩])
      [⟨1, ["a", "bad"], none⟩, ⟨2, ["b", "d"], none⟩]).1 (by decide)).trans (by decide)
  · exact (enrich_roadmap_attaches_sources
      (fun o => if o = "bad" then .error () else .ok [⟨o, "u", "c"⟩])
      [⟨3, [], some []⟩]).2 (by decide)

/-- Counterexample to C1 as stated: on a roadmap whose only step has no
objectives, the merge is skipped entirely, so the step's `resources` is
left unset (`none`) instead of being the (empty) concatenation of its
objectives' sources. -/
theorem enrich_roadmap_empty_counterexample :
    (enrich_roadmap (fun _ => .error ()) [⟨1, [], none⟩]).map (·.resources) = [none]
    ∧ (none : Option (List RetrievedSource)) ≠ some [] :=
  ⟨rfl, by decide⟩

/-! ## Failure propagation in the retrieval service -/

/-- Claim C3 (amended): a model-load failure on first use propagates as
the service error with the state untouched; a client/collection failure
after the model assignment propagates as the service error leaving the
model marked loaded but the collection unset; a per-query search failure
on an initialized service propagates to the caller; but when a previous
partial initialization left the model loaded with the collection unset,
the query returns the empty low-confidence sentinel as a successful
result — so that one failure state is masked as "nothing relevant", not
surfaced as an error. -/
theorem rag_service_failure_modes (env : RAGEnv) (s : RAGState) (q : String) (k : Nat) :
    (s.modelLoaded = false → env.modelLoadOk = false →
      query_and_assess_sources env s q k = (.error .initError, s))
    ∧ (s.modelLoaded = false → env.modelLoadOk = true → env.clientOk = false →
      query_and_assess_sources env s q k
        = (.error .initError, { s with modelLoaded := true }))
    ∧ (∀ c, s.modelLoaded = true → s.collection = some c → env.queryOk = false →
      query_and_assess_sources env s q k = (.error .queryError, s))
    ∧ (s.modelLoaded = true → s.collection = none →
      query_and_assess_sources env s q k = (.ok ⟨[], "low"⟩, s)) := by
  refine ⟨?_, ?_, ?_, ?_⟩
  · intro hm he
    simp [query_and_assess_sources, lazy_initialize, hm, he]
  · intro hm he hc
    simp [query_and_assess_sources, lazy_initialize, hm, he, hc]
  · intro c hm hc hq
    simp [query_and_assess_sources, lazy_initialize, hm, hc, hq]
  · intro hm hc
    simp [query_and_assess_sources, lazy_initialize, hm, hc]

/-- Witness for C3 at concrete environments and states, one per failure
mode. -/
theorem rag_service_failure_modes_witness :
    query_and_assess_sources ⟨false, true, true, [], fun _ _ => 0⟩ ⟨false, none⟩ "q" 2
      = (.error .initError, ⟨false, none⟩)
    ∧ query_and_assess_sources ⟨true, false, true, [], fun _ _ => 0⟩ ⟨false, none⟩ "q" 2
      = (.error .initError, ⟨true, none⟩)
    ∧ query_and_assess_sources ⟨true, true, false, [], fun _ _ => 0⟩ ⟨true, some []⟩ "q" 2
      = (.error .queryError, ⟨true, some []⟩)
    ∧ query_and_assess_sources ⟨true, true, true, [], fun _ _ => 0⟩ ⟨true, none⟩ "q" 2
      = (.ok ⟨[], "low"⟩, ⟨true, none⟩) :=
  ⟨(rag_service_failure_modes ⟨false, true, true, [], fun _ _ => 0⟩
      ⟨false, none⟩ "q" 2).1 rfl rfl,
   (rag_service_failure_modes ⟨true, false, true, [], fun _ _ => 0⟩
      ⟨false, none⟩ "q" 2).2.1 rfl rfl rfl,
   (rag_service_failure_modes ⟨true, true, false, [], fun _ _ => 0⟩
      ⟨true, some []⟩ "q" 2).2.2.1 [] rfl rfl rfl,
   (rag_service_failure_modes ⟨true, true, true, [], fun _ _ => 0⟩
      ⟨true, none⟩ "q" 2).2.2.2 rfl rfl⟩

/-- Counterexample to C3 as stated: a first call whose client creation
fails raises the service error but leaves the model marked loaded with
the collection unset; the next call on that state succeeds with the
empty low-confidence payload — the very sentinel of the relevance
gate — so a caller cannot distinguish "could not look" from "nothing
relevant found". -/
theorem rag_masked_unavailable_collection_counterexample :
    (query_and_assess_sources ⟨true, false, true, [], fun _ _ => 0⟩ ⟨false, none⟩ "x" 1).2
      = ⟨true, none⟩
    ∧ (query_and_assess_sources ⟨true, false, true, [], fun _ _ => 0⟩ ⟨false, none⟩ "x" 1).1
      = .error .initError
    ∧ (query_and_assess_sources ⟨true, true, true, [], fun _ _ => 0⟩ ⟨true, none⟩ "x" 1).1
      = .ok ⟨[], "low"⟩ :=
  ⟨rfl, rfl, rfl⟩
